import Mathlib

/-!
Verification of the PEM electrolyzer cluster model
(src/hybrid/PEM_Model_2Push/PEM_H2_LT_electrolyzer_Clusters.py).

The per-timestep pipeline is vectorized in the source (numpy arrays); we embed
each array as a `List ℚ` (exact rational arithmetic; the float operations of the
source are all field operations, comparisons and selections, so the structure is
preserved exactly).  The one exception is the characteristic-curve inversion
`calc_current`, whose formula contains a square root; that part of the model is
embedded over `ℝ` with `Real.sqrt`.

Fixed configuration constants of the class (set in `__init__`):
  stack_rating_kW = 1000, N_cells = 130, cell_active_area = 1920,
  T_C = 80, dt is a constructor parameter (default 3600 s).
-/

/-- Number of cells per stack (`self.N_cells = 130`). -/
def N_cells : ℚ := 130

/-- Cell active area in cm² (`self.cell_active_area = 1920`). -/
def cell_active_area : ℚ := 1920

/-- Stack rated power in kW (`self.stack_rating_kW = 1000`). -/
def stack_rating_kW : ℚ := 1000

/-- Uptime (steady) degradation rate in V/s
(`steady_deg_rate=1.41737929e-10` in `calc_uptime_degradation`). -/
def steady_deg_rate : ℚ := 141737929 / 10 ^ 18

/-- On/off cycling degradation rate in V per off-cycle
(`onoff_deg_rate=1.47821515e-04` in `calc_onoff_degradation`). -/
def onoff_deg_rate : ℚ := 147821515 / 10 ^ 12

/-- Fatigue degradation rate (`rate_fatigue = 3.33330244e-07` in
`approx_fatigue_degradation`). -/
def rate_fatigue : ℚ := 333330244 / 10 ^ 15

/-- Elementwise clamped input power, from `external_power_supply`:
`np.where(input > max_stacks*stack_rating_kW, max_stacks*stack_rating_kW, input)`.
Note the source clamps only from above; there is no clamp at zero. -/
def external_power_supply (max_stacks : ℚ) (input_external_power_kw : List ℚ) : List ℚ :=
  input_external_power_kw.map (fun p =>
    if p > max_stacks * stack_rating_kW then max_stacks * stack_rating_kW else p)

/-- Curtailed power recorded by `external_power_supply`:
`np.where(input > max_stacks*stack_rating_kW, input - max_stacks*stack_rating_kW, 0)`. -/
def power_curtailed_kw (max_stacks : ℚ) (input_external_power_kw : List ℚ) : List ℚ :=
  input_external_power_kw.map (fun p =>
    if p > max_stacks * stack_rating_kW then p - max_stacks * stack_rating_kW else 0)

/-- Cluster on/off status, from `system_design`:
`cluster_min_power = 0.1*cluster_size_mw`;
`cluster_status = np.where(input_power_kw < cluster_min_power, 0, 1)`.
Note the threshold is `0.1 * cluster_size_mw` (a number of megawatts) compared
against a power in kilowatts; `run` calls this with `cluster_size_mw = self.max_stacks`. -/
def system_design (input_power_kw : List ℚ) (cluster_size_mw : ℚ) : List ℚ :=
  input_power_kw.map (fun p => if p < 0.1 * cluster_size_mw then 0 else 1)

/-- The 10%-of-rated-capacity threshold in kW that the specification describes:
ten percent of `max_stacks * stack_rating_kW`.  (Spec-side notion, used to compare
with the threshold actually computed by `system_design`.) -/
def ten_percent_capacity_kW (max_stacks : ℚ) : ℚ := 0.1 * (max_stacks * stack_rating_kW)

/-- Backward difference `np.diff` of a series. -/
def diffList (xs : List ℚ) : List ℚ :=
  List.zipWith (fun a b => b - a) xs xs.tail

/-- The transition signal built in `run`:
`cluster_cycling = [cluster_status[0]] + list(np.diff(cluster_status))`. -/
def cluster_cycling (cluster_status : List ℚ) : List ℚ :=
  match cluster_status with
  | [] => []
  | s0 :: _ => s0 :: diffList cluster_status

/-- Startup multiplier series from `run`:
`startup_ratio = 1 - startup_time/dt` with `startup_time = 600` and
`h2_multiplier = np.where(cluster_cycling > 0, startup_ratio, 1)`. -/
def h2_multiplier (dt : ℚ) (cluster_status : List ℚ) : List ℚ :=
  (cluster_cycling cluster_status).map (fun c => if c > 0 then 1 - 600 / dt else 1)

/-- Hydrogen series scaled by the startup multiplier, from `run`:
`h2_kg_hr_system = h2_kg_hr_system_init * h2_multiplier`. -/
def h2_with_startup_loss (dt : ℚ) (cluster_status h2_kg_hr_system_init : List ℚ) : List ℚ :=
  List.zipWith (· * ·) h2_kg_hr_system_init (h2_multiplier dt cluster_status)

/-- Off-cycle count series from `calc_onoff_degradation`:
`change_stack = np.diff(cluster_status)`;
`cycle_cnt = np.where(change_stack < 0, -1*change_stack, 0)`;
`cycle_cnt = np.array([0] + list(cycle_cnt))`. -/
def off_cycle_cnt (cluster_status : List ℚ) : List ℚ :=
  0 :: (diffList cluster_status).map (fun c => if c < 0 then -1 * c else 0)

/-- Per-timestep cycling degradation increment from `calc_onoff_degradation`:
`stack_off_deg_per_hr = onoff_deg_rate * cycle_cnt`. -/
def calc_onoff_degradation (cluster_status : List ℚ) : List ℚ :=
  (off_cycle_cnt cluster_status).map (fun c => onoff_deg_rate * c)

/-- Per-timestep uptime degradation increment from `calc_uptime_degradation`:
`steady_deg_per_hr = dt * steady_deg_rate * voltage_signal * cluster_status`. -/
def calc_uptime_degradation (dt : ℚ) (voltage_signal cluster_status : List ℚ) : List ℚ :=
  List.zipWith (fun v s => dt * steady_deg_rate * v * s) voltage_signal cluster_status

/-- Running (cumulative) sum `np.cumsum`. -/
def cumsum (xs : List ℚ) : List ℚ :=
  (List.range xs.length).map (fun t => ((xs.take (t + 1)).sum))

/-- Collapse of adjacent equal samples, auxiliary for reversal extraction. -/
def collapseAux (x : ℚ) : List ℚ → List ℚ
  | [] => [x]
  | y :: rest => if x = y then collapseAux x rest else x :: collapseAux y rest

/-- Collapse adjacent equal samples of a series (the reversal scan of the
rainflow library skips samples equal to their predecessor). -/
def collapseRepeats : List ℚ → List ℚ
  | [] => []
  | x :: rest => collapseAux x rest

/-- Auxiliary for `reversals`: keep an interior point exactly when the signal
changes direction there, and always keep the last point. -/
def revAux (prev : ℚ) : List ℚ → List ℚ
  | [] => []
  | [y] => [y]
  | y :: z :: rest =>
      if (y - prev) * (z - y) < 0 then y :: revAux y (z :: rest) else revAux y (z :: rest)

/-- Modelled from the spec: turning-point (reversal) extraction of the external
rainflow library (absent from src/) — the first point, every interior point at
which the first difference changes sign, and the last point. -/
def reversals (xs : List ℚ) : List ℚ :=
  match collapseRepeats xs with
  | [] => []
  | [x] => [x]
  | x :: rest => x :: revAux x rest

/-- Modelled from the spec: one pass of the three-point rainflow extraction loop
over the pending reversal points (oldest first).  Whenever the last three pending
points x1,x2,x3 satisfy |x3-x2| ≥ |x2-x1|, a range-pair is extracted: a half
cycle (count 1/2) dropping the oldest point when only three points are pending,
else a full cycle (count 1) dropping the middle of the last three. -/
def rfLoop : ℕ → List ℚ → List (ℚ × ℚ) → List (ℚ × ℚ) × List ℚ
  | 0, pts, cyc => (cyc, pts)
  | Nat.succ fuel, pts, cyc =>
    let n := pts.length
    if n < 3 then (cyc, pts)
    else
      let x1 := pts.getD (n - 3) 0
      let x2 := pts.getD (n - 2) 0
      let x3 := pts.getD (n - 1) 0
      if |x3 - x2| < |x2 - x1| then (cyc, pts)
      else if n = 3 then rfLoop fuel (pts.drop 1) (cyc ++ [(|x1 - x2|, 1 / 2)])
      else rfLoop fuel (pts.take (n - 2) ++ [x3]) (cyc ++ [(|x1 - x2|, 1)])

/-- Modelled from the spec: feed one further reversal point into the pending
deque and run the extraction loop. -/
def rfAdd (acc : List (ℚ × ℚ) × List ℚ) (z : ℚ) : List (ℚ × ℚ) × List ℚ :=
  rfLoop (acc.2.length + 1) (acc.2 ++ [z]) acc.1

/-- Modelled from the spec: the residual pending points are emitted pairwise as
half cycles (count 1/2) at the end of the extraction. -/
def residual_half_cycles : List ℚ → List (ℚ × ℚ)
  | x :: y :: rest => (|x - y|, 1 / 2) :: residual_half_cycles (y :: rest)
  | _ => []

/-- Modelled from the spec: full range-pair (rainflow cycle) extraction of a
series — `(range, count)` pairs. -/
def extract_cycles (xs : List ℚ) : List (ℚ × ℚ) :=
  let r := (reversals xs).foldl rfAdd ([], [])
  r.1 ++ residual_half_cycles r.2

/-- Modelled from the spec: `rainflow.count_cycles(series, nbins=10)` of the
external rainflow library — ranges are binned into 10 equal-width amplitude bins
spanning the series' value range, each extracted pair is keyed by the upper edge
of its bin (capped at the last bin).  The pairs are left unaggregated; the
cycle-weighted sum below is unaffected by aggregation. -/
def count_cycles_nbins10 (xs : List ℚ) : List (ℚ × ℚ) :=
  let mx := xs.foldl max (xs.headD 0)
  let mn := xs.foldl min (xs.headD 0)
  let binsize := (mx - mn) / 10
  (extract_cycles xs).map (fun rc =>
    (((min 10 (Int.ceil (rc.1 / binsize)) : ℤ) : ℚ) * binsize, rc.2))

/-- Cycle-weighted sum `np.sum([pair[0] * pair[1] for pair in rf_cycles])`
used in `approx_fatigue_degradation`. -/
def rf_sum (xs : List ℚ) : ℚ :=
  ((count_cycles_nbins10 xs).map (fun rc => rc.1 * rc.2)).sum

/-- The samples handed to the cycle counter for the window `[a, b)` in
`approx_fatigue_degradation`, embedded exactly as written in the source:
`voltage_signal[np.nonzero(voltage_signal[t_calc[i]:t_calc[i+1]])]` — the
nonzero positions are computed relative to the window slice, but are then used
to index the full `voltage_signal` array. -/
def fatigue_window_samples (voltage_signal : List ℚ) (a b : ℕ) : List ℚ :=
  let win := (voltage_signal.drop a).take (b - a)
  ((List.range win.length).filter (fun i => decide (win.getD i 0 ≠ 0))).map
    (fun i => voltage_signal.getD i 0)

/-- The samples the specification says the window cycle count is computed over:
exactly the nonzero samples lying within the window `[a, b)` of the signal. -/
def fatigue_window_samples_spec (voltage_signal : List ℚ) (a b : ℕ) : List ℚ :=
  ((voltage_signal.drop a).take (b - a)).filter (fun v => decide (v ≠ 0))

/-- Cycle-weighted sum of one 168-step window in `approx_fatigue_degradation`. -/
def window_rf_sum (voltage_signal : List ℚ) (i : ℕ) : ℚ :=
  rf_sum (fatigue_window_samples voltage_signal (168 * i) (168 * i + 168))

/-- Running total `rf_track` after the first `k` windows of
`approx_fatigue_degradation`. -/
def rf_track (voltage_signal : List ℚ) (k : ℕ) : ℚ :=
  ((List.range k).map (window_rf_sum voltage_signal)).sum

/-- Windowed fatigue degradation series from `approx_fatigue_degradation`:
the loop fills `V_fatigue_ts[t_calc[i]:t_calc[i+1]] = rf_track * rate_fatigue`
after adding window i's cycle-weighted sum to `rf_track`
(`dt_fatigue_calc_hrs = 24*7 = 168`), so index t holds the running total through
window `t / 168`. -/
def approx_fatigue_degradation (voltage_signal : List ℚ) : List ℚ :=
  (List.range voltage_signal.length).map
    (fun t => rf_track voltage_signal (t / 168 + 1) * rate_fatigue)

/-- Combined degradation computation from `full_degradation`: returns the final
voltage series and the cumulative degradation signal
`deg_signal = np.cumsum(V_deg_uptime) + np.cumsum(V_deg_onoff) + V_fatigue`
(all three mechanism flags are set to True in `__init__`). -/
def full_degradation (dt : ℚ) (voltage_signal cluster_status : List ℚ) :
    List ℚ × List ℚ :=
  let vs := List.zipWith (· * ·) voltage_signal cluster_status
  let v_deg_uptime := calc_uptime_degradation dt vs cluster_status
  let v_deg_onoff := calc_onoff_degradation cluster_status
  let v_signal :=
    List.zipWith (· + ·) vs (List.zipWith (· + ·) (cumsum v_deg_uptime) (cumsum v_deg_onoff))
  let v_fatigue := approx_fatigue_degradation v_signal
  let deg_signal :=
    List.zipWith (· + ·) (List.zipWith (· + ·) (cumsum v_deg_uptime) (cumsum v_deg_onoff))
      v_fatigue
  (List.zipWith (· + ·) vs deg_signal, deg_signal)

/-- Faradaic efficiency from `faradaic_efficiency`:
`I_cell = stack_current * 1000`;
`n_F = ((I_cell/area)^2 / (f_1 + (I_cell/area)^2)) * f_2` with
`f_1 = 250`, `f_2 = 0.996`, `area = cell_active_area = 1920`. -/
def faradaic_efficiency (stack_current : ℚ) : ℚ :=
  let I_cell := stack_current * 1000
  ((I_cell / cell_active_area) ^ 2 / (250 + (I_cell / cell_active_area) ^ 2)) * 0.996

/-- Per-stack power division from `run`:
`power_per_stack = np.where(n_stacks_op > 0, input_power_kw/n_stacks_op, 0)` —
the result of the division is only kept where the stack count is positive. -/
def power_per_stack (n_stacks_op input_power_kw : List ℚ) : List ℚ :=
  List.zipWith (fun n p => if 0 < n then p / n else 0) n_stacks_op input_power_kw

/-- Reported kWh-per-kg ratio from `run`:
`h2_results['kwh_per_kgH2'] = input_power_kw / h2_kg_hr_system`, an unguarded
elementwise float division.  A zero denominator yields a non-finite float
(inf or nan); we model a non-finite entry as `none`. -/
def kwh_per_kgH2 (input_power_kw h2_kg_hr_system : List ℚ) : List (Option ℚ) :=
  List.zipWith (fun p h => if h = 0 then none else some (p / h)) input_power_kw h2_kg_hr_system

/-- Degradation step of `run` with the local-variable scoping of the source made
explicit.  In `run`, the local `V_init` is assigned only inside the
`if self.include_deg_penalty:` branch (line `V_init=self.cell_design(...)`), yet
the `else:` branch's first statement also reads it
(`V_ignore,deg_signal=self.full_degradation(V_init)`).  Reading an unassigned
local raises `UnboundLocalError` in Python; we model the local as an `Option`
that is populated only on the branch that assigns it, and the read of an empty
local as an `Except.error`. -/
def run_degradation_step (include_deg_penalty : Bool) (dt : ℚ)
    (cell_design_voltage cluster_status : List ℚ) : Except String (List ℚ × List ℚ) :=
  let V_init_local : Option (List ℚ) :=
    if include_deg_penalty then some cell_design_voltage else none
  match V_init_local with
  | some v => Except.ok (full_degradation dt v cluster_status)
  | none => Except.error "UnboundLocalError: local variable V_init referenced before assignment"

/-- Characteristic-curve inversion `calc_current((pwr, tempc), p1, ..., p6)`:
`i_stack = p1*pwr**3 + p2*pwr**2 + p3*pwr + p4*pwr**(1/2) + p5` (the fitted
coefficient `p6` is accepted but unused in the active formula, exactly as in the
source; the temperature argument does not appear in the formula either). -/
noncomputable def calc_current (p1 p2 p3 p4 p5 p6 pwr : ℝ) : ℝ :=
  p1 * pwr ^ 3 + p2 * pwr ^ 2 + p3 * pwr + p4 * Real.sqrt pwr + p5

/-- Elementwise body of `find_equivalent_input_power_4_deg` (the §4.5
equivalent-current correction), translated statement by statement:
`I_in = calc_current(power_in)`;
`P_consumed = I_in*(V_init+V_deg)*N_cells/1000`;
`P_consumed = np.where(P_consumed >= power_in, P_consumed, power_in)`;
`P_consumed = P_consumed*cluster_status`;
`power_diff_error = P_consumed - power_in`;
`P_equiv = power_in - power_diff_error`;
`I_equiv = calc_current(P_equiv)`;
`I_equiv = np.where(I_equiv > 0, I_equiv, 0)`. -/
noncomputable def find_equivalent_current_1 (p1 p2 p3 p4 p5 p6
    power_in V_init V_deg status : ℝ) : ℝ :=
  let I_in := calc_current p1 p2 p3 p4 p5 p6 power_in
  let P_consumed0 := I_in * (V_init + V_deg) * 130 / 1000
  let P_consumed1 := if P_consumed0 ≥ power_in then P_consumed0 else power_in
  let P_consumed2 := P_consumed1 * status
  let power_diff_error := P_consumed2 - power_in
  let P_equiv := power_in - power_diff_error
  let I_equiv := calc_current p1 p2 p3 p4 p5 p6 P_equiv
  if I_equiv > 0 then I_equiv else 0

/-- Concrete voltage signal used to exercise the fatigue window selection:
one whole 168-step window of zeros (cluster off for the first week) followed by
two nonzero samples in the second window. -/
def c2_input : List ℚ := List.replicate 168 0 ++ [3, 5]

/-- Elementwise map over four equal-length series. -/
def map4 {α : Type} (f : α → α → α → α → α) : List α → List α → List α → List α → List α
  | a :: as, b :: bs, c :: cs, d :: ds => f a b c d :: map4 f as bs cs ds
  | _, _, _, _ => []

/-- Vectorized `find_equivalent_input_power_4_deg` over the power, BOL-voltage,
degradation and cluster-status series. -/
noncomputable def find_equivalent_input_power_4_deg (p1 p2 p3 p4 p5 p6 : ℝ)
    (power_in V_init V_deg status : List ℝ) : List ℝ :=
  map4 (find_equivalent_current_1 p1 p2 p3 p4 p5 p6) power_in V_init V_deg status

/-!  Theorems.  -/

/-- C10: for every input, calling the degradation step of `run` with
`include_degradation_penalty = False` fails with an undefined-variable error
(the degradation-disabled branch reads the local `V_init`, which is never
assigned on that path), so no output bundle is produced. -/
theorem C10_run_fails_when_degradation_disabled (dt : ℚ)
    (cell_design_voltage cluster_status : List ℚ) :
    run_degradation_step false dt cell_design_voltage cluster_status =
      Except.error "UnboundLocalError: local variable V_init referenced before assignment" :=
  rfl

/-- C1 (failing input for the code bug): with a 1-stack (1 MW) cluster and a
constant 50 kW input, the clamped input power is 50 kW, strictly below the
10%-of-capacity threshold of 100 kW claimed by the spec, yet `system_design`
reports the cluster ON (status 1): the source compares kilowatts against
`0.1 * cluster_size_mw`, a number of megawatts (0.1 here). -/
theorem C1_threshold_unit_bug :
    external_power_supply 1 [50] = [50] ∧
    system_design (external_power_supply 1 [50]) 1 = [1] ∧
    (external_power_supply 1 [50]).getD 0 0 < ten_percent_capacity_kW 1 := by
  norm_num [external_power_supply, system_design, ten_percent_capacity_kW, stack_rating_kW]

/-- C5 (counterexample): `external_power_supply` does not clamp the input to the
interval [0, max_stacks * stack_rating_kW] — a negative input of -5 kW passes
through unclamped (the source clamps only from above). -/
theorem C5_negative_input_not_clamped :
    external_power_supply 1 [-5] = [-5] ∧
    power_curtailed_kw 1 [-5] = [0] ∧
    ¬ (0 : ℚ) ≤ (external_power_supply 1 [-5]).getD 0 0 := by
  norm_num [external_power_supply, power_curtailed_kw, stack_rating_kW]

/-- C5 (amended): `external_power_supply` clamps each input value from above at
`max_stacks * stack_rating_kW` (output = min(input, cap); there is no lower
clamp, so the output lies in [0, cap] only when the input is nonnegative), and
the recorded curtailed power equals exactly the positive part of the excess of
the raw input over the cap. -/
theorem C5_amended_upper_clamp_and_exact_curtailment (max_stacks : ℚ) (xs : List ℚ) :
    external_power_supply max_stacks xs =
      xs.map (fun p => min p (max_stacks * stack_rating_kW)) ∧
    power_curtailed_kw max_stacks xs =
      xs.map (fun p => max (p - max_stacks * stack_rating_kW) 0) := by
  constructor
  · unfold external_power_supply
    congr 1
    funext p
    by_cases h : p > max_stacks * stack_rating_kW
    · simp only [if_pos h]
      exact (min_eq_right h.le).symm
    · simp only [if_neg h]
      exact (min_eq_left (not_lt.mp h)).symm
  · unfold power_curtailed_kw
    congr 1
    funext p
    by_cases h : p > max_stacks * stack_rating_kW
    · simp only [if_pos h]
      have : (0 : ℚ) ≤ p - max_stacks * stack_rating_kW := by linarith
      exact (max_eq_left this).symm
    · simp only [if_neg h]
      have : p - max_stacks * stack_rating_kW ≤ 0 := by
        have := not_lt.mp h
        linarith
      exact (max_eq_right this).symm

/-- C7 (counterexample): the reported kWh-per-kg ratio is not guarded — at a
timestep with 50 kW of input power and zero hydrogen production the entry is the
unguarded division 50/0, a non-finite float in the source (modelled `none`),
not a zero/sentinel rational value. -/
theorem C7_kwh_ratio_not_guarded :
    kwh_per_kgH2 [50] [0] = [none] ∧
    ∀ q : ℚ, (kwh_per_kgH2 [50] [0]).getD 0 none ≠ some q := by
  refine ⟨rfl, fun q h => ?_⟩
  simpa [kwh_per_kgH2] using h

/-- C7 (amended): the per-stack power division of `run` is guarded — the entry
is 0 (not a division result) wherever the active stack count is 0 — while the
reported kWh-per-kg ratio is not guarded: its entry is the degenerate division
(non-finite in the source, modelled `none`) exactly at the timesteps where
hydrogen production is 0. -/
theorem C7_amended_division_guards (n_stacks_op input_power h2_kg : List ℚ) (t : ℕ)
    (h1 : t < (power_per_stack n_stacks_op input_power).length)
    (h2 : t < (kwh_per_kgH2 input_power h2_kg).length) :
    (n_stacks_op.getD t 0 = 0 → (power_per_stack n_stacks_op input_power).getD t 0 = 0) ∧
    ((kwh_per_kgH2 input_power h2_kg).getD t none = none ↔ h2_kg.getD t 0 = 0) := by
  have hl1 : t < n_stacks_op.length := by
    rw [power_per_stack, List.length_zipWith] at h1
    exact lt_of_lt_of_le h1 (min_le_left _ _)
  have hl3 : t < h2_kg.length := by
    rw [kwh_per_kgH2, List.length_zipWith] at h2
    exact lt_of_lt_of_le h2 (min_le_right _ _)
  constructor
  · intro hz
    rw [List.getD_eq_getElem _ _ hl1] at hz
    rw [List.getD_eq_getElem _ _ h1]
    simp only [power_per_stack, List.getElem_zipWith]
    rw [hz]
    norm_num
  · rw [List.getD_eq_getElem _ _ h2, List.getD_eq_getElem _ _ hl3]
    simp only [kwh_per_kgH2, List.getElem_zipWith]
    split_ifs with hh
    · simp [hh]
    · simp [hh]

/-- C7 (witness for the amended theorem): with one active-stack-count entry 0
and one zero hydrogen entry, the per-stack power entry is 0 and the kWh-per-kg
entry is the non-finite marker. -/
theorem C7_amended_division_guards_witness :
    (power_per_stack [0] [50]).getD 0 0 = 0 ∧ (kwh_per_kgH2 [50] [0]).getD 0 none = none := by
  have h := C7_amended_division_guards [0] [50] [0] 0 (by norm_num [power_per_stack])
    (by norm_num [kwh_per_kgH2])
  exact ⟨h.1 (by norm_num), h.2.mpr (by norm_num)⟩

/-- C6: for a 0/1 cluster-status series, the cycling degradation increment at
each timestep equals `onoff_deg_rate` times the number (0 or 1) of 1→0
transitions ending at that timestep, computed by backward difference: each 1→0
transition contributes exactly one `onoff_deg_rate` increment and 0→1
transitions (and the first timestep) contribute zero. -/
theorem C6_cycling_degradation_increments (cluster_status : List ℚ)
    (hs : ∀ s ∈ cluster_status, s = 0 ∨ s = 1) (t : ℕ)
    (ht : t < (calc_onoff_degradation cluster_status).length) :
    (calc_onoff_degradation cluster_status).getD t 0 =
      onoff_deg_rate *
        (if 1 ≤ t ∧ cluster_status.getD (t - 1) 0 = 1 ∧ cluster_status.getD t 0 = 0
         then 1 else 0) := by
  simp only [calc_onoff_degradation, off_cycle_cnt, List.map_cons] at ht ⊢
  match t with
  | 0 =>
    simp
  | Nat.succ k =>
    simp only [List.length_cons, List.length_map, Nat.succ_lt_succ_iff] at ht
    have hk : k < (diffList cluster_status).length := ht
    have hk1 : k + 1 < cluster_status.length := by
      simp only [diffList, List.length_zipWith, List.length_tail] at hk
      omega
    have hk0 : k < cluster_status.length := by omega
    simp only [List.getD_cons_succ, Nat.succ_sub_one, Nat.succ_eq_add_one]
    simp only [List.getD_eq_getElem _ _ (show k < (List.map (fun c =>
        onoff_deg_rate * c) ((diffList cluster_status).map
        (fun c => if c < 0 then -1 * c else 0))).length by simpa using hk),
      List.getD_eq_getElem _ _ hk0, List.getD_eq_getElem _ _ hk1]
    simp only [List.getElem_map, diffList, List.getElem_zipWith, List.getElem_tail]
    have h0 := hs _ (List.getElem_mem hk0)
    have h1 := hs _ (List.getElem_mem hk1)
    rcases h0 with h0 | h0 <;> rcases h1 with h1 | h1 <;>
      rw [h0, h1] <;> norm_num

/-- C6 (witness): status series [1, 0]; the increment at timestep 1 (a 1→0
transition) is exactly one `onoff_deg_rate`. -/
theorem C6_cycling_degradation_increments_witness :
    (calc_onoff_degradation [1, 0]).getD 1 0 = onoff_deg_rate * 1 := by
  have h := C6_cycling_degradation_increments [1, 0]
    (by intro s hsmem
        simp only [List.mem_cons, List.not_mem_nil, or_false] at hsmem
        tauto) 1
    (by norm_num [calc_onoff_degradation, off_cycle_cnt, diffList])
  rw [h]
  norm_num

/-- Length of the transition signal equals the length of the status series. -/
theorem length_cluster_cycling (s : List ℚ) : (cluster_cycling s).length = s.length := by
  cases s with
  | nil => rfl
  | cons a l =>
    simp only [cluster_cycling, diffList, List.length_cons, List.length_zipWith,
      List.length_tail]
    omega

/-- Length of the startup multiplier series equals the length of the status
series. -/
theorem length_h2_multiplier (dt : ℚ) (s : List ℚ) :
    (h2_multiplier dt s).length = s.length := by
  simp [h2_multiplier, length_cluster_cycling]

/-- Entry t of the transition signal: the first status value at t = 0, and the
backward difference of the status series at t ≥ 1. -/
theorem cluster_cycling_getD (s : List ℚ) (t : ℕ) (ht : t < s.length) :
    (cluster_cycling s).getD t 0 =
      if t = 0 then s.getD 0 0 else s.getD t 0 - s.getD (t - 1) 0 := by
  match s, t with
  | [], _ => exact absurd ht (by simp)
  | s0 :: rest, 0 =>
    simp [cluster_cycling]
  | s0 :: rest, Nat.succ k =>
    have hk : k < (diffList (s0 :: rest)).length := by
      simp only [diffList, List.length_zipWith, List.length_tail, List.length_cons] at ht ⊢
      omega
    simp only [cluster_cycling, List.getD_cons_succ, Nat.succ_eq_add_one, Nat.succ_sub_one,
      if_neg (Nat.succ_ne_zero k)]
    rw [List.getD_eq_getElem _ _ hk,
      List.getD_eq_getElem _ _ (show k < rest.length by
        simp only [List.length_cons] at ht
        omega),
      List.getD_eq_getElem _ _ (show k < (s0 :: rest).length by
        simp only [List.length_cons] at ht ⊢
        omega)]
    simp [diffList, List.getElem_zipWith]

/-- C8: for a 0/1 status series, the hydrogen output entry at timestep t is the
unscaled output multiplied by `1 - 600/dt` exactly at the timesteps where an
OFF→ON transition occurs (the transition signal `[status[0]] + diff(status)` is
positive: at t ≥ 1 this means status goes 0→1, at t = 0 it means the series
starts ON), and multiplied by 1 at every other timestep. -/
theorem C8_startup_penalty (dt : ℚ) (cluster_status h2_init : List ℚ)
    (hs : ∀ s ∈ cluster_status, s = 0 ∨ s = 1) (t : ℕ)
    (ht : t < (h2_with_startup_loss dt cluster_status h2_init).length) :
    (h2_with_startup_loss dt cluster_status h2_init).getD t 0 =
      h2_init.getD t 0 *
        (if cluster_status.getD t 0 = 1 ∧ (t = 0 ∨ cluster_status.getD (t - 1) 0 = 0)
          then 1 - 600 / dt else 1) := by
  have hts : t < cluster_status.length := by
    rw [h2_with_startup_loss, List.length_zipWith] at ht
    have h := lt_of_lt_of_le ht (min_le_right _ _)
    rwa [length_h2_multiplier] at h
  have hth : t < h2_init.length := by
    rw [h2_with_startup_loss, List.length_zipWith] at ht
    exact lt_of_lt_of_le ht (min_le_left _ _)
  have htc : t < (cluster_cycling cluster_status).length := by
    rw [length_cluster_cycling]
    exact hts
  have htm : t < (h2_multiplier dt cluster_status).length := by
    rw [length_h2_multiplier]
    exact hts
  rw [List.getD_eq_getElem _ _ ht]
  simp only [h2_with_startup_loss, List.getElem_zipWith]
  rw [List.getD_eq_getElem _ _ hth]
  congr 1
  rw [← List.getD_eq_getElem (h2_multiplier dt cluster_status) 0 htm]
  have hmul : (h2_multiplier dt cluster_status).getD t 0 =
      if (cluster_cycling cluster_status).getD t 0 > 0 then 1 - 600 / dt else 1 := by
    rw [List.getD_eq_getElem _ _ htm]
    simp only [h2_multiplier, List.getElem_map]
    rw [List.getD_eq_getElem _ _ htc]
  rw [hmul, cluster_cycling_getD cluster_status t hts]
  have hv1 : cluster_status.getD t 0 = 0 ∨ cluster_status.getD t 0 = 1 := by
    rw [List.getD_eq_getElem _ _ hts]
    exact hs _ (List.getElem_mem hts)
  rcases Nat.eq_zero_or_pos t with rfl | htpos
  · simp only [if_pos rfl, reduceIte]
    rcases hv1 with h1 | h1 <;> rw [h1] <;> norm_num
  · have htm1 : t - 1 < cluster_status.length := by omega
    have hv0 : cluster_status.getD (t - 1) 0 = 0 ∨ cluster_status.getD (t - 1) 0 = 1 := by
      rw [List.getD_eq_getElem _ _ htm1]
      exact hs _ (List.getElem_mem htm1)
    rw [if_neg (by omega : ¬ t = 0)]
    have htne : ¬ t = 0 := by omega
    rcases hv1 with h1 | h1 <;> rcases hv0 with h0 | h0 <;>
      rw [h1, h0] <;> simp [htne]

/-- C8 (witness): dt = 3600 s, status series [0, 1], unscaled hydrogen [4, 6];
the entry at the OFF→ON timestep t = 1 is scaled by 1 - 600/3600 = 5/6. -/
theorem C8_startup_penalty_witness :
    (h2_with_startup_loss 3600 [0, 1] [4, 6]).getD 1 0 = 5 := by
  have h := C8_startup_penalty 3600 [0, 1] [4, 6]
    (by intro s hsmem
        simp only [List.mem_cons, List.not_mem_nil, or_false] at hsmem
        tauto) 1
    (by norm_num [h2_with_startup_loss, h2_multiplier, cluster_cycling, diffList])
  rw [h]
  norm_num

/-- C9: the Faradaic efficiency lies strictly between 0 and 1 for every strictly
positive stack current, and it equals 0 exactly when the stack current is 0. -/
theorem C9_faradaic_efficiency_bounds (stack_current : ℚ) :
    (0 < stack_current →
      0 < faradaic_efficiency stack_current ∧ faradaic_efficiency stack_current < 1) ∧
    (faradaic_efficiency stack_current = 0 ↔ stack_current = 0) := by
  have harea : cell_active_area = (1920 : ℚ) := rfl
  simp only [faradaic_efficiency, harea]
  set j : ℚ := stack_current * 1000 / 1920 with hj
  have hden : (0 : ℚ) < 250 + j ^ 2 := by positivity
  constructor
  · intro hI
    have hjpos : 0 < j := by
      rw [hj]
      positivity
    have hx : 0 < j ^ 2 := by positivity
    constructor
    · exact mul_pos (div_pos hx hden) (by norm_num)
    · have h1 : j ^ 2 / (250 + j ^ 2) < 1 := (div_lt_one hden).mpr (by linarith)
      have h2 := mul_lt_mul_of_pos_right h1 (show (0 : ℚ) < 0.996 by norm_num)
      calc j ^ 2 / (250 + j ^ 2) * 0.996 < 1 * 0.996 := h2
        _ < 1 := by norm_num
  · constructor
    · intro h
      have h3 : j ^ 2 / (250 + j ^ 2) = 0 := by
        rcases mul_eq_zero.mp h with h4 | h4
        · exact h4
        · exact absurd h4 (by norm_num)
      have h5 : j ^ 2 = 0 := by
        rcases div_eq_zero_iff.mp h3 with h6 | h6
        · exact h6
        · exact absurd h6 (by linarith)
      have h7 : j = 0 := by
        exact pow_eq_zero_iff (by norm_num) |>.mp h5
      rw [hj] at h7
      field_simp at h7
      rcases mul_eq_zero.mp h7 with h8 | h8
      · exact h8
      · exact absurd h8 (by norm_num)
    · intro h
      rw [hj, h]
      norm_num

/-- C9 (witness): at the concrete positive current 5 A the Faradaic efficiency
is in (0, 1), and its vanishing is equivalent to the current being zero. -/
theorem C9_faradaic_efficiency_bounds_witness :
    0 < faradaic_efficiency 5 ∧ faradaic_efficiency 5 < 1 ∧
      (faradaic_efficiency 5 = 0 ↔ (5 : ℚ) = 0) := by
  have h := C9_faradaic_efficiency_bounds 5
  exact ⟨(h.1 (by norm_num)).1, (h.1 (by norm_num)).2, h.2⟩

/-- C2 (failing input for the code bug): for the voltage signal consisting of a
first 168-step window of zeros followed by the nonzero samples 3 and 5 in the
second window, the samples the source hands to the cycle counter for the second
window are [0, 0] — the window-relative nonzero positions 0 and 1 are used to
index the full signal — and not the nonzero samples [3, 5] lying within that
window, as the claim states; consequently the second window contributes a
cycle-weighted sum of 0 instead of the 1 obtained from its nonzero samples. -/
theorem C2_fatigue_window_indexing_bug :
    fatigue_window_samples c2_input 168 336 = [0, 0] ∧
    fatigue_window_samples_spec c2_input 168 336 = [3, 5] ∧
    fatigue_window_samples c2_input 168 336 ≠ fatigue_window_samples_spec c2_input 168 336 ∧
    window_rf_sum c2_input 1 = 0 ∧
    rf_sum (fatigue_window_samples_spec c2_input 168 336) = 1 := by
  have hd : c2_input.drop 168 = [3, 5] := by
    rw [c2_input]
    exact List.drop_left' (List.length_replicate ..)
  have hg0 : c2_input.getD 0 0 = 0 := by
    rw [List.getD_eq_getElem?_getD, c2_input,
      List.getElem?_append_left (by rw [List.length_replicate]; omega),
      List.getElem?_replicate_of_lt (by omega)]
    rfl
  have hg1 : c2_input.getD 1 0 = 0 := by
    rw [List.getD_eq_getElem?_getD, c2_input,
      List.getElem?_append_left (by rw [List.length_replicate]; omega),
      List.getElem?_replicate_of_lt (by omega)]
    rfl
  have hcode : fatigue_window_samples c2_input 168 336 = [0, 0] := by
    simp only [fatigue_window_samples]
    rw [show 336 - 168 = 168 from rfl, hd, List.take_of_length_le (by norm_num)]
    rw [show List.range ([(3 : ℚ), 5]).length = [0, 1] from rfl]
    rw [show List.filter (fun i => decide (List.getD [(3 : ℚ), 5] i 0 ≠ 0)) [0, 1] = [0, 1]
      from by decide]
    rw [List.map_cons, List.map_cons, List.map_nil, hg0, hg1]
  have hspec : fatigue_window_samples_spec c2_input 168 336 = [3, 5] := by
    simp only [fatigue_window_samples_spec]
    rw [show 336 - 168 = 168 from rfl, hd, List.take_of_length_le (by norm_num)]
    decide
  refine ⟨hcode, hspec, ?_, ?_, ?_⟩
  · rw [hcode, hspec]
    intro h
    have h0 := congrArg (fun l => l.getD 0 0) h
    norm_num at h0
  · rw [window_rf_sum, show 168 * 1 = 168 from rfl, show 168 * 1 + 168 = 336 from rfl, hcode]
    norm_num [rf_sum, count_cycles_nbins10, extract_cycles, reversals, collapseRepeats,
      collapseAux, revAux, rfAdd, rfLoop, residual_half_cycles, List.foldl]
  · rw [hspec]
    norm_num [rf_sum, count_cycles_nbins10, extract_cycles, reversals, collapseRepeats,
      collapseAux, revAux, rfAdd, rfLoop, residual_half_cycles, List.foldl]

/-- Folding min over a list never exceeds the seed. -/
theorem foldl_min_le_seed (l : List ℚ) : ∀ a : ℚ, l.foldl min a ≤ a := by
  induction l with
  | nil => intro a; exact le_refl a
  | cons x xs ih =>
    intro a
    calc (x :: xs).foldl min a = xs.foldl min (min a x) := by rw [List.foldl_cons]
      _ ≤ min a x := ih (min a x)
      _ ≤ a := min_le_left a x

/-- Folding max over a list is at least the seed. -/
theorem seed_le_foldl_max (l : List ℚ) : ∀ a : ℚ, a ≤ l.foldl max a := by
  induction l with
  | nil => intro a; exact le_refl a
  | cons x xs ih =>
    intro a
    calc a ≤ max a x := le_max_left a x
      _ ≤ xs.foldl max (max a x) := ih (max a x)
      _ = (x :: xs).foldl max a := by rw [List.foldl_cons]

/-- Every range-pair emitted by the extraction loop has nonnegative range and
positive count, provided the pairs already collected do. -/
theorem rfLoop_pairs_nonneg (fuel : ℕ) :
    ∀ (pts : List ℚ) (cyc : List (ℚ × ℚ)), (∀ p ∈ cyc, 0 ≤ p.1 ∧ 0 < p.2) →
      ∀ p ∈ (rfLoop fuel pts cyc).1, 0 ≤ p.1 ∧ 0 < p.2 := by
  induction fuel with
  | zero =>
    intro pts cyc h p hp
    exact h p hp
  | succ n ih =>
    intro pts cyc h p hp
    rw [rfLoop] at hp
    simp only [] at hp
    split_ifs at hp with h1 h2 h3
    · exact h p hp
    · exact h p hp
    · refine ih _ _ ?_ p hp
      intro q hq
      rcases List.mem_append.mp hq with hq | hq
      · exact h q hq
      · rcases List.mem_singleton.mp hq with rfl
        exact ⟨abs_nonneg _, by norm_num⟩
    · refine ih _ _ ?_ p hp
      intro q hq
      rcases List.mem_append.mp hq with hq | hq
      · exact h q hq
      · rcases List.mem_singleton.mp hq with rfl
        exact ⟨abs_nonneg _, by norm_num⟩

/-- Every residual half cycle has nonnegative range and positive count. -/
theorem residual_half_cycles_pairs_nonneg (pts : List ℚ) :
    ∀ p ∈ residual_half_cycles pts, 0 ≤ p.1 ∧ 0 < p.2 := by
  induction pts with
  | nil => intro p hp; simp [residual_half_cycles] at hp
  | cons x rest ih =>
    cases rest with
    | nil => intro p hp; simp [residual_half_cycles] at hp
    | cons y rest2 =>
      intro p hp
      rw [residual_half_cycles] at hp
      rcases List.mem_cons.mp hp with rfl | hp
      · exact ⟨abs_nonneg _, by norm_num⟩
      · exact ih p hp

/-- The fold of the extraction loop over the reversal points preserves pair
nonnegativity. -/
theorem foldl_rfAdd_pairs_nonneg (zs : List ℚ) :
    ∀ acc : List (ℚ × ℚ) × List ℚ, (∀ p ∈ acc.1, 0 ≤ p.1 ∧ 0 < p.2) →
      ∀ p ∈ (zs.foldl rfAdd acc).1, 0 ≤ p.1 ∧ 0 < p.2 := by
  induction zs with
  | nil => intro acc h p hp; exact h p hp
  | cons z zs ih =>
    intro acc h p hp
    rw [List.foldl_cons] at hp
    refine ih _ ?_ p hp
    intro q hq
    rw [rfAdd] at hq
    exact rfLoop_pairs_nonneg _ _ _ h q hq

/-- Every extracted range-pair has nonnegative range and positive count. -/
theorem extract_cycles_pairs_nonneg (xs : List ℚ) :
    ∀ p ∈ extract_cycles xs, 0 ≤ p.1 ∧ 0 < p.2 := by
  intro p hp
  simp only [extract_cycles] at hp
  rcases List.mem_append.mp hp with hp | hp
  · exact foldl_rfAdd_pairs_nonneg _ _ (by intro q hq; simp at hq) p hp
  · exact residual_half_cycles_pairs_nonneg _ p hp

/-- The cycle-weighted sum of any series is nonnegative: cycle counts are
positive, ranges are nonnegative, the bin width is nonnegative, and the binned
range key is therefore nonnegative. -/
theorem rf_sum_nonneg (xs : List ℚ) : 0 ≤ rf_sum xs := by
  rw [rf_sum]
  apply List.sum_nonneg
  intro x hx
  simp only [count_cycles_nbins10, List.map_map, List.mem_map] at hx
  obtain ⟨rc, hrc, rfl⟩ := hx
  obtain ⟨h1, h2⟩ := extract_cycles_pairs_nonneg xs rc hrc
  have hbs : 0 ≤ (xs.foldl max (xs.headD 0) - xs.foldl min (xs.headD 0)) / 10 := by
    have hmn := foldl_min_le_seed xs (xs.headD 0)
    have hmx := seed_le_foldl_max xs (xs.headD 0)
    have : (0 : ℚ) ≤ xs.foldl max (xs.headD 0) - xs.foldl min (xs.headD 0) := by linarith
    positivity
  set binsize := (xs.foldl max (xs.headD 0) - xs.foldl min (xs.headD 0)) / 10 with hbsdef
  rcases eq_or_lt_of_le hbs with hz | hpos
  · simp only [Function.comp]
    rw [← hz]
    norm_num
  · have hceil : (0 : ℤ) ≤ ⌈rc.1 / binsize⌉ := Int.ceil_nonneg (div_nonneg h1 hpos.le)
    have hkey : (0 : ℚ) ≤ ((min 10 ⌈rc.1 / binsize⌉ : ℤ) : ℚ) := by
      have hmin : (0 : ℤ) ≤ min 10 ⌈rc.1 / binsize⌉ := le_min (by norm_num) hceil
      exact_mod_cast hmin
    simp only [Function.comp]
    exact mul_nonneg (mul_nonneg hkey hpos.le) h2.le

/-- Length of a cumulative sum. -/
theorem length_cumsum (l : List ℚ) : (cumsum l).length = l.length := by
  simp [cumsum]

/-- Entry t of a cumulative sum is the sum of the first t+1 entries. -/
theorem cumsum_getD (l : List ℚ) (t : ℕ) (ht : t < l.length) :
    (cumsum l).getD t 0 = (l.take (t + 1)).sum := by
  rw [cumsum, List.getD_eq_getElem _ _ (by simpa using ht)]
  simp

/-- A cumulative sum of entrywise-nonnegative increments is non-decreasing. -/
theorem cumsum_getD_mono (l : List ℚ) (h : ∀ x ∈ l, 0 ≤ x) (t : ℕ)
    (ht : t + 1 < l.length) :
    (cumsum l).getD t 0 ≤ (cumsum l).getD (t + 1) 0 := by
  rw [cumsum_getD _ _ (by omega), cumsum_getD _ _ ht,
    List.sum_take_succ _ (t + 1) ht]
  have hx : 0 ≤ l[t + 1] := h _ (List.getElem_mem ht)
  linarith

/-- Entry out-of-range or in-range of an entrywise-nonnegative list is
nonnegative under the default 0. -/
theorem getD_nonneg_of_forall (l : List ℚ) (h : ∀ x ∈ l, 0 ≤ x) (t : ℕ) :
    0 ≤ l.getD t 0 := by
  by_cases ht : t < l.length
  · rw [List.getD_eq_getElem _ _ ht]
    exact h _ (List.getElem_mem ht)
  · rw [List.getD_eq_default _ _ (le_of_not_lt ht)]

/-- All cycling degradation increments are nonnegative. -/
theorem calc_onoff_degradation_nonneg (s : List ℚ) :
    ∀ x ∈ calc_onoff_degradation s, 0 ≤ x := by
  intro x hx
  simp only [calc_onoff_degradation, List.mem_map] at hx
  obtain ⟨c, hc, rfl⟩ := hx
  have hcn : 0 ≤ c := by
    simp only [off_cycle_cnt, List.mem_cons, List.mem_map] at hc
    rcases hc with rfl | ⟨d, _, rfl⟩
    · exact le_refl 0
    · split_ifs with hd
      · linarith
      · exact le_refl 0
  exact mul_nonneg (by norm_num [onoff_deg_rate]) hcn

/-- Pointwise facts about the two inputs of a zipWith transfer to its output. -/
theorem zipWith_forall_nonneg {f : ℚ → ℚ → ℚ} (P1 P2 : ℚ → Prop) :
    ∀ (l1 l2 : List ℚ), (∀ a ∈ l1, P1 a) → (∀ b ∈ l2, P2 b) →
      (∀ a b, P1 a → P2 b → 0 ≤ f a b) → ∀ x ∈ List.zipWith f l1 l2, 0 ≤ x := by
  intro l1
  induction l1 with
  | nil => intro l2 _ _ _ x hx; simp at hx
  | cons a l1 ih =>
    intro l2 h1 h2 hf x hx
    cases l2 with
    | nil => simp at hx
    | cons b l2 =>
      rw [List.zipWith_cons_cons] at hx
      rcases List.mem_cons.mp hx with rfl | hx
      · exact hf a b (h1 a (List.mem_cons_self a l1)) (h2 b (List.mem_cons_self b l2))
      · exact ih l2 (fun q hq => h1 q (List.mem_cons_of_mem _ hq))
          (fun q hq => h2 q (List.mem_cons_of_mem _ hq)) hf x hx

/-- Running total of window sums after one more window. -/
theorem rf_track_succ (vs : List ℚ) (k : ℕ) :
    rf_track vs (k + 1) = rf_track vs k + window_rf_sum vs k := by
  rw [rf_track, rf_track, List.range_succ, List.map_append, List.sum_append]
  simp

/-- The running total of window cycle-weighted sums is monotone in the number
of windows. -/
theorem rf_track_mono (vs : List ℚ) {k1 k2 : ℕ} (h : k1 ≤ k2) :
    rf_track vs k1 ≤ rf_track vs k2 := by
  induction h with
  | refl => exact le_refl _
  | step h2 ih =>
    rename_i m
    calc rf_track vs k1 ≤ rf_track vs m := ih
      _ ≤ rf_track vs (m + 1) := by
          rw [rf_track_succ]
          have := rf_sum_nonneg (fatigue_window_samples vs (168 * m) (168 * m + 168))
          rw [window_rf_sum]
          linarith

/-- Length of the windowed fatigue series. -/
theorem length_approx_fatigue (vs : List ℚ) :
    (approx_fatigue_degradation vs).length = vs.length := by
  simp [approx_fatigue_degradation]

/-- Entry t of the windowed fatigue series. -/
theorem approx_fatigue_getD (vs : List ℚ) (t : ℕ) (ht : t < vs.length) :
    (approx_fatigue_degradation vs).getD t 0 =
      rf_track vs (t / 168 + 1) * rate_fatigue := by
  rw [approx_fatigue_degradation, List.getD_eq_getElem _ _ (by simpa using ht)]
  simp

/-- The windowed fatigue series is non-decreasing in index. -/
theorem approx_fatigue_getD_mono (vs : List ℚ) (t : ℕ) (ht : t + 1 < vs.length) :
    (approx_fatigue_degradation vs).getD t 0 ≤
      (approx_fatigue_degradation vs).getD (t + 1) 0 := by
  rw [approx_fatigue_getD _ _ (by omega), approx_fatigue_getD _ _ ht]
  have hdiv : t / 168 + 1 ≤ (t + 1) / 168 + 1 := by
    have := Nat.div_le_div_right (c := 168) (Nat.le_succ t)
    omega
  have := rf_track_mono vs hdiv
  have hrate : (0 : ℚ) ≤ rate_fatigue := by norm_num [rate_fatigue]
  exact mul_le_mul_of_nonneg_right this hrate

/-- Entry of an elementwise sum of two series. -/
theorem zipWith_add_getD (a b : List ℚ) (t : ℕ)
    (h : t < (List.zipWith (· + ·) a b).length) :
    (List.zipWith (· + ·) a b).getD t 0 = a.getD t 0 + b.getD t 0 := by
  have h1 : t < a.length := by
    rw [List.length_zipWith] at h
    exact lt_of_lt_of_le h (min_le_left _ _)
  have h2 : t < b.length := by
    rw [List.length_zipWith] at h
    exact lt_of_lt_of_le h (min_le_right _ _)
  rw [List.getD_eq_getElem _ _ h, List.getElem_zipWith,
    List.getD_eq_getElem _ _ h1, List.getD_eq_getElem _ _ h2]

/-- C4: the combined cumulative degradation signal produced by
`full_degradation` (cumulative uptime + cumulative cycling + windowed fatigue
running total) is non-decreasing in index: deg[t] ≤ deg[t+1] for every
timestep, for every nonnegative input voltage series, 0/1 status series and
nonnegative timestep length. -/
theorem C4_degradation_monotone (dt : ℚ) (hdt : 0 ≤ dt)
    (voltage_signal cluster_status : List ℚ)
    (hv : ∀ v ∈ voltage_signal, 0 ≤ v)
    (hs : ∀ s ∈ cluster_status, s = 0 ∨ s = 1) (t : ℕ)
    (ht : t + 1 < ((full_degradation dt voltage_signal cluster_status).2).length) :
    (full_degradation dt voltage_signal cluster_status).2.getD t 0 ≤
      (full_degradation dt voltage_signal cluster_status).2.getD (t + 1) 0 := by
  simp only [full_degradation] at ht ⊢
  set vs := List.zipWith (· * ·) voltage_signal cluster_status with hvs
  set up := calc_uptime_degradation dt vs cluster_status with hup
  set onoff := calc_onoff_degradation cluster_status with honoff
  set vsig := List.zipWith (· + ·) vs (List.zipWith (· + ·) (cumsum up) (cumsum onoff))
    with hvsig
  set fat := approx_fatigue_degradation vsig with hfat
  have hsplit : t + 1 < (List.zipWith (· + ·) (cumsum up) (cumsum onoff)).length ∧
      t + 1 < fat.length := by
    rw [List.length_zipWith] at ht
    exact ⟨lt_of_lt_of_le ht (min_le_left _ _), lt_of_lt_of_le ht (min_le_right _ _)⟩
  have hU : t + 1 < up.length := by
    have h1 := hsplit.1
    rw [List.length_zipWith, length_cumsum, length_cumsum] at h1
    exact lt_of_lt_of_le h1 (min_le_left _ _)
  have hO : t + 1 < onoff.length := by
    have h1 := hsplit.1
    rw [List.length_zipWith, length_cumsum, length_cumsum] at h1
    exact lt_of_lt_of_le h1 (min_le_right _ _)
  have hF : t + 1 < vsig.length := by
    have h1 := hsplit.2
    rwa [hfat, length_approx_fatigue] at h1
  have hvsnn : ∀ x ∈ vs, 0 ≤ x := by
    rw [hvs]
    refine zipWith_forall_nonneg (fun v => 0 ≤ v) (fun s => s = 0 ∨ s = 1) _ _ hv hs ?_
    intro a b ha hb
    rcases hb with rfl | rfl
    · rw [mul_zero]
    · rw [mul_one]
      exact ha
  have hupnn : ∀ x ∈ up, 0 ≤ x := by
    rw [hup, calc_uptime_degradation]
    refine zipWith_forall_nonneg (fun v => 0 ≤ v) (fun s => s = 0 ∨ s = 1) _ _ hvsnn hs ?_
    intro a b ha hb
    have hb0 : 0 ≤ b := by
      rcases hb with rfl | rfl
      · exact le_refl 0
      · norm_num
    have hr : (0 : ℚ) ≤ steady_deg_rate := by norm_num [steady_deg_rate]
    exact mul_nonneg (mul_nonneg (mul_nonneg hdt hr) ha) hb0
  have honnn : ∀ x ∈ onoff, 0 ≤ x := by
    rw [honoff]
    exact calc_onoff_degradation_nonneg cluster_status
  rw [zipWith_add_getD _ _ _ ht, zipWith_add_getD _ _ _ (by omega),
    zipWith_add_getD _ _ _ hsplit.1, zipWith_add_getD _ _ _ (by omega)]
  have i1 := cumsum_getD_mono up hupnn t hU
  have i2 := cumsum_getD_mono onoff honnn t hO
  have i3 : fat.getD t 0 ≤ fat.getD (t + 1) 0 := by
    rw [hfat]
    exact approx_fatigue_getD_mono vsig t hF
  linarith

/-- C4 (witness): dt = 3600 s, voltage series [2, 2] V, status series [1, 0]
(one ON step, then an OFF transition); the combined degradation signal does not
decrease from timestep 0 to timestep 1. -/
theorem C4_degradation_monotone_witness :
    (full_degradation 3600 [2, 2] [1, 0]).2.getD 0 0 ≤
      (full_degradation 3600 [2, 2] [1, 0]).2.getD 1 0 := by
  have h := C4_degradation_monotone 3600 (by norm_num) [2, 2] [1, 0]
    (by intro v hvmem
        simp only [List.mem_cons, List.not_mem_nil, or_false] at hvmem
        rcases hvmem with rfl | rfl <;> norm_num)
    (by intro s hsmem
        simp only [List.mem_cons, List.not_mem_nil, or_false] at hsmem
        tauto) 0
    (by norm_num [full_degradation, List.length_zipWith, length_cumsum,
        length_approx_fatigue, calc_uptime_degradation, calc_onoff_degradation,
        off_cycle_cnt, diffList])
  exact h

/-- Elementwise form of the zero-degradation identity: at a cluster-on timestep
with zero degradation, nonnegative BOL current and BOL consumed power not above
the delivered power, the corrected current equals the BOL current. -/
theorem find_equivalent_current_1_zero_deg (p1 p2 p3 p4 p5 p6 power V_init : ℝ)
    (hI : 0 ≤ calc_current p1 p2 p3 p4 p5 p6 power)
    (hP : calc_current p1 p2 p3 p4 p5 p6 power * V_init * 130 / 1000 ≤ power) :
    find_equivalent_current_1 p1 p2 p3 p4 p5 p6 power V_init 0 1 =
      calc_current p1 p2 p3 p4 p5 p6 power := by
  simp only [find_equivalent_current_1]
  set I := calc_current p1 p2 p3 p4 p5 p6 power with hIdef
  have hite : (if I * (V_init + 0) * 130 / 1000 ≥ power
      then I * (V_init + 0) * 130 / 1000 else power) = power := by
    split_ifs with hcond
    · have he : I * (V_init + 0) * 130 / 1000 = I * V_init * 130 / 1000 := by ring
      rw [he] at hcond ⊢
      linarith
    · rfl
  rw [hite]
  have harg : power - (power * 1 - power) = power := by ring
  rw [harg, ← hIdef]
  rcases eq_or_lt_of_le hI with h0 | h0
  · rw [if_neg (by rw [← h0]; exact lt_irrefl 0)]
    exact h0
  · rw [if_pos h0]

/-- C3 (amended): for every delivered power series, when the degradation signal
is identically zero, at every timestep where the cluster is on, the BOL current
from the curve fit is nonnegative, and the BOL consumed power
(I_BOL × V_init × N_cells / 1000) does not exceed the delivered power, the
equivalent current returned by `find_equivalent_input_power_4_deg` equals the
BOL current obtained from the curve fit at the same delivered power, exactly. -/
theorem C3_zero_deg_equiv_current_identity (p1 p2 p3 p4 p5 p6 : ℝ)
    (power V_init V_deg status : List ℝ)
    (hlen1 : V_init.length = power.length) (hlen2 : V_deg.length = power.length)
    (hlen3 : status.length = power.length)
    (hdeg : ∀ d ∈ V_deg, d = 0) (hstat : ∀ s ∈ status, s = 1)
    (hI : ∀ p ∈ power, 0 ≤ calc_current p1 p2 p3 p4 p5 p6 p)
    (hP : ∀ pv ∈ power.zip V_init,
      calc_current p1 p2 p3 p4 p5 p6 pv.1 * pv.2 * 130 / 1000 ≤ pv.1) :
    find_equivalent_input_power_4_deg p1 p2 p3 p4 p5 p6 power V_init V_deg status =
      power.map (calc_current p1 p2 p3 p4 p5 p6) := by
  induction power generalizing V_init V_deg status with
  | nil =>
    rcases V_init with _ | ⟨v, vs⟩
    · rfl
    · simp at hlen1
  | cons p ps ih =>
    rcases V_init with _ | ⟨v, vs⟩
    · simp at hlen1
    rcases V_deg with _ | ⟨d, ds⟩
    · simp at hlen2
    rcases status with _ | ⟨s, ss⟩
    · simp at hlen3
    have hd0 : d = 0 := hdeg d (List.mem_cons_self d ds)
    have hs1 : s = 1 := hstat s (List.mem_cons_self s ss)
    rw [show find_equivalent_input_power_4_deg p1 p2 p3 p4 p5 p6 (p :: ps) (v :: vs)
        (d :: ds) (s :: ss) = find_equivalent_current_1 p1 p2 p3 p4 p5 p6 p v d s ::
        find_equivalent_input_power_4_deg p1 p2 p3 p4 p5 p6 ps vs ds ss from rfl]
    rw [List.map_cons, hd0, hs1]
    congr 1
    · exact find_equivalent_current_1_zero_deg p1 p2 p3 p4 p5 p6 p v
        (hI p (List.mem_cons_self p ps))
        (hP (p, v) (by rw [List.zip_cons_cons]; exact List.mem_cons_self _ _))
    · refine ih vs ds ss (by simpa using hlen1) (by simpa using hlen2) (by simpa using hlen3)
        (fun q hq => hdeg q (List.mem_cons_of_mem d hq))
        (fun q hq => hstat q (List.mem_cons_of_mem s hq))
        (fun q hq => hI q (List.mem_cons_of_mem p hq))
        (fun q hq => hP q ?_)
      rw [List.zip_cons_cons]
      exact List.mem_cons_of_mem _ hq

/-- C3 (witness for the amended theorem): with the fitted coefficients
(0,0,1,0,0,0) the curve fit is the identity, and at delivered power 1 kW with
BOL voltage 5 V, zero degradation and the cluster on, the equivalent current
equals the BOL current. -/
theorem C3_zero_deg_equiv_current_identity_witness :
    find_equivalent_input_power_4_deg 0 0 1 0 0 0 [1] [5] [0] [1] =
      List.map (calc_current 0 0 1 0 0 0) [1] := by
  apply C3_zero_deg_equiv_current_identity 0 0 1 0 0 0 [1] [5] [0] [1] rfl rfl rfl
  · intro d hd
    simpa using hd
  · intro s hs
    simpa using hs
  · intro p hp
    rcases (by simpa using hp : p = 1) with rfl
    norm_num [calc_current]
  · intro pv hpv
    rcases (by simpa using hpv : pv = (1, 5)) with rfl
    norm_num [calc_current]

/-- C3 (counterexample): with the fitted coefficients (0,0,1,0,0,0) (so the
curve fit is the identity on power), delivered power 1 kW, BOL voltage 10 V,
zero degradation and the cluster on, the BOL consumed power is 1.3 kW > 1 kW,
so the floor-at-delivered-power branch fires and the correction returns the
equivalent current 0.7, not the BOL current 1: the claimed identity is not
exact for every series. -/
theorem C3_zero_deg_not_always_identity :
    find_equivalent_input_power_4_deg 0 0 1 0 0 0 [1] [10] [0] [1] = [7 / 10] ∧
    List.map (calc_current 0 0 1 0 0 0) [1] = [1] ∧
    (7 / 10 : ℝ) ≠ 1 := by
  refine ⟨?_, ?_, by norm_num⟩
  · rw [show find_equivalent_input_power_4_deg 0 0 1 0 0 0 [1] [10] [0] [1] =
        [find_equivalent_current_1 0 0 1 0 0 0 1 10 0 1] from rfl]
    simp only [find_equivalent_current_1, calc_current]
    norm_num
  · simp [calc_current]
